import Mathlib

/-!
Verification of the frequency-analysis pipeline
(`src/python/frequency_analysis/frequency_analysis.py`).

The development shallowly embeds the two pure stages of the script:

* `process_data` (lines 89-113), split here into `process_code_freq`
  (the code-frequency half) and `process_activity` (the commit-activity
  half, mirroring the per-contributor loop followed by `pd.concat`);
* the scale computation and figure construction of `plot_data`
  (lines 116-239).

Machine reals produced by numpy/pandas are modelled by `PyVal`: a rational
for finite floats plus the three non-finite values that numpy division and
multiplication can produce (division by zero emits a warning, not an
exception, and returns an infinity or NaN).  Timestamps stay as epoch
seconds: `pd.to_datetime(unit="s")` is an injective re-labelling that
touches neither ordering nor counts.

Fallible pandas operations are made explicit: a missing dict key raises
`KeyError` in Python (`ProcessError.keyError` here, covering both a missing
record field and a missing column of an empty `DataFrame`), and
`pd.concat` of an empty list raises `ValueError`
(`ProcessError.emptyConcat` here).
-/

/-- One row of the processed code-frequency table: columns
`timestamp`, `additions`, `deletions` (line 97). -/
structure ChurnSample where
  timestamp : Int
  additions : Int
  deletions : Int
  deriving DecidableEq, Repr

/-- One row of the processed commit-activity table: columns
`timestamp`, `c`, `author` (line 109). -/
structure CommitSample where
  timestamp : Int
  c : Int
  author : String
  deriving DecidableEq, Repr

/-- A raw contributor record of the commit-activity payload.
`author` is `some login` when `contributor["author"]["login"]` resolves and
`none` when the author identifier is missing; `weeks` is `some` the list of
`(w, c)` pairs when the `"weeks"` key is present and `none` otherwise. -/
structure RawContributor where
  author : Option String
  weeks : Option (List (Int × Int))
  deriving DecidableEq, Repr

/-- Exceptions the processing stage can raise.  `keyError` models Python's
`KeyError` (missing dict key, or missing column of an empty `DataFrame`);
`emptyConcat` models the `ValueError` raised by `pd.concat` on an empty
list of frames (line 111). -/
inductive ProcessError where
  | keyError
  | emptyConcat
  deriving DecidableEq, Repr

/-- Embedding of the code-frequency half of `process_data` (lines 97-99):
build the frame from the `[timestamp, additions, deletions]` triples, keep
the timestamp (epoch seconds), then overwrite the deletions column with
`-deletions.abs()`. -/
def process_code_freq (code_freq : List (Int × Int × Int)) : List ChurnSample :=
  let df := code_freq.map fun r => ChurnSample.mk r.1 r.2.1 r.2.2
  df.map fun s => { s with deletions := -|s.deletions| }

/-- The rows produced for one contributor's week list: one `CommitSample`
per `(w, c)` entry, in input order, tagged with the author (lines 106-109). -/
def weekSamples (a : String) (ws : List (Int × Int)) : List CommitSample :=
  ws.map fun p => CommitSample.mk p.1 p.2 a

/-- One iteration of the contributor loop (lines 103-109).  A record
missing its author login or its weeks list raises `KeyError`; a record
whose week list is empty also raises `KeyError`, because
`pd.DataFrame([])` has no columns, so `weekly_data["w"]` on line 108
fails.  Otherwise the week list is flattened in order. -/
def flattenContributor (r : RawContributor) : Except ProcessError (List CommitSample) :=
  match r.author, r.weeks with
  | some a, some ws => if ws.isEmpty then .error .keyError else .ok (weekSamples a ws)
  | _, _ => .error .keyError

/-- The contributor loop of `process_data` (lines 102-109): process the
records in order, stopping at the first exception. -/
def buildUp : List RawContributor → Except ProcessError (List (List CommitSample))
  | [] => .ok []
  | r :: rs =>
    match flattenContributor r with
    | .error e => .error e
    | .ok l =>
      match buildUp rs with
      | .error e => .error e
      | .ok ls => .ok (l :: ls)

/-- Embedding of the commit-activity half of `process_data`
(lines 102-111): run the loop, then `pd.concat`, which raises `ValueError`
when handed an empty list of frames. -/
def process_activity (activity : List RawContributor) : Except ProcessError (List CommitSample) :=
  match buildUp activity with
  | .error e => .error e
  | .ok ls => if ls.isEmpty then .error .emptyConcat else .ok ls.flatten

/-- A numpy scalar as it flows through `plot_data`: a finite value, one of
the two infinities, or NaN. -/
inductive PyVal where
  | finite : ℚ → PyVal
  | inf
  | negInf
  | nan
  deriving DecidableEq, Repr

/-- numpy true division on scalars: division of a finite value by zero
emits a RuntimeWarning and yields an infinity (or NaN for `0/0`) instead
of raising. -/
def pyDiv : PyVal → PyVal → PyVal
  | .nan, _ => .nan
  | _, .nan => .nan
  | .finite a, .finite b =>
    if b = 0 then
      if 0 < a then .inf else if a < 0 then .negInf else .nan
    else .finite (a / b)
  | .finite _, .inf => .finite 0
  | .finite _, .negInf => .finite 0
  | .inf, .finite b => if 0 ≤ b then .inf else .negInf
  | .negInf, .finite b => if 0 ≤ b then .negInf else .inf
  | .inf, .inf => .nan
  | .inf, .negInf => .nan
  | .negInf, .inf => .nan
  | .negInf, .negInf => .nan

/-- numpy multiplication on scalars (`0 * inf = nan`). -/
def pyMul : PyVal → PyVal → PyVal
  | .nan, _ => .nan
  | _, .nan => .nan
  | .finite a, .finite b => .finite (a * b)
  | .finite a, .inf => if 0 < a then .inf else if a < 0 then .negInf else .nan
  | .finite a, .negInf => if 0 < a then .negInf else if a < 0 then .inf else .nan
  | .inf, .finite b => if 0 < b then .inf else if b < 0 then .negInf else .nan
  | .negInf, .finite b => if 0 < b then .negInf else if b < 0 then .inf else .nan
  | .inf, .inf => .inf
  | .inf, .negInf => .negInf
  | .negInf, .inf => .negInf
  | .negInf, .negInf => .inf

/-- `commit_dataframe["c"].max() or 1` (line 125): the maximum of the `c`
column — NaN on an empty frame — then Python's `or`, which replaces a
falsy `0` by `1` and keeps every other value (NaN is truthy). -/
def maxCommits (commits : List CommitSample) : PyVal :=
  match commits with
  | [] => .nan
  | x :: xs =>
    let m : Int := (xs.map (fun s => s.c)).foldl max x.c
    if m = 0 then .finite 1 else .finite (m : ℚ)

/-- `max(code_dataframe["additions"].max(), abs(code_dataframe["deletions"].min()))`
(line 126): NaN on an empty frame, otherwise the larger of the additions
maximum and the magnitude of the deletions minimum. -/
def churnDenom (churn : List ChurnSample) : PyVal :=
  match churn with
  | [] => .nan
  | x :: xs =>
    let a : Int := (xs.map (fun s => s.additions)).foldl max x.additions
    let d : Int := (xs.map (fun s => s.deletions)).foldl min x.deletions
    .finite ((max a |d| : Int) : ℚ)

/-- `scaling_factor = max_commits / max(...)` (lines 125-126). -/
def scalingFactor (churn : List ChurnSample) (commits : List CommitSample) : PyVal :=
  pyDiv (maxCommits commits) (churnDenom churn)

/-- One plotted trace: its legend name, x values (timestamps) and
y values. -/
structure Trace where
  name : String
  xs : List Int
  ys : List PyVal
  deriving DecidableEq, Repr

/-- One figure: its title and its traces in the order they were added. -/
structure Figure where
  title : String
  traces : List Trace
  deriving DecidableEq, Repr

/-- `commit_dataframe["author"].unique()` preserves first-occurrence
order. -/
def uniqueAuthors (commits : List CommitSample) : List String :=
  (commits.map (fun s => s.author)).foldl
    (fun acc x => if x ∈ acc then acc else acc ++ [x]) []

/-- The per-contributor commit traces (`commit_dataframe[commit_dataframe["author"] == contributor]`),
one trace per unique author, each group's rows kept in table order. -/
def commitTraces (tag : String) (commits : List CommitSample) : List Trace :=
  (uniqueAuthors commits).map fun a =>
    { name := tag ++ a
      xs := (commits.filter fun s => s.author == a).map fun s => s.timestamp
      ys := (commits.filter fun s => s.author == a).map fun s => PyVal.finite (s.c : ℚ) }

/-- The combined overlay figure (lines 122-175): additions and deletions
each multiplied by the scaling factor, then one raw commit line per
contributor. -/
def overlayFigure (churn : List ChurnSample) (commits : List CommitSample) : Figure :=
  let s := scalingFactor churn commits
  { title := "Code frequency withing contributor activity"
    traces :=
      [ { name := "Additions (scaled)"
          xs := churn.map fun r => r.timestamp
          ys := churn.map fun r => pyMul (.finite (r.additions : ℚ)) s },
        { name := "Deletions (scaled)"
          xs := churn.map fun r => r.timestamp
          ys := churn.map fun r => pyMul (.finite (r.deletions : ℚ)) s } ]
      ++ commitTraces "Commits by: " commits }

/-- The "Raw code frequency" figure (lines 180-218), trace by trace as the
source adds them: an unscaled additions line, a second additions trace
labelled "(scaled)" but in fact unscaled (line 193 multiplies by nothing),
and a deletions trace that IS multiplied by the scaling factor
(line 204). -/
def rawChurnFigure (churn : List ChurnSample) (commits : List CommitSample) : Figure :=
  let s := scalingFactor churn commits
  { title := "Raw code frequency"
    traces :=
      [ { name := "Additions"
          xs := churn.map fun r => r.timestamp
          ys := churn.map fun r => PyVal.finite (r.additions : ℚ) },
        { name := "Additions (scaled)"
          xs := churn.map fun r => r.timestamp
          ys := churn.map fun r => PyVal.finite (r.additions : ℚ) },
        { name := "Deletions (scaled)"
          xs := churn.map fun r => r.timestamp
          ys := churn.map fun r => pyMul (.finite (r.deletions : ℚ)) s } ] }

/-- The "Raw commit activity" figure (lines 221-239): one unscaled line
per contributor. -/
def rawCommitFigure (commits : List CommitSample) : Figure :=
  { title := "Raw commit activity"
    traces := commitTraces "Commits by " commits }

/-- `plot_data` (lines 116-239): the three figures shown, in order.  The
function has no failure path: the scale is computed unconditionally and
all three figures are always produced. -/
def plot_data (churn : List ChurnSample) (commits : List CommitSample) : List Figure :=
  [overlayFigure churn commits, rawChurnFigure churn commits, rawCommitFigure commits]

/-- Spec-side quantity: the maximum commit count, treated as 1 when the
commit sequence is empty or all-zero. -/
def maxCommitCount (commits : List CommitSample) : ℚ :=
  match commits with
  | [] => 1
  | x :: xs =>
    let m : Int := (xs.map (fun s => s.c)).foldl max x.c
    if m = 0 then 1 else (m : ℚ)

/-- Spec-side quantity: the peak additions count of the churn table. -/
def peakAdditions (churn : List ChurnSample) : Int :=
  match churn with
  | [] => 0
  | x :: xs => (xs.map (fun s => s.additions)).foldl max x.additions

/-- Spec-side quantity: the peak magnitude of deletions of the churn
table. -/
def peakDeletionMagnitude (churn : List ChurnSample) : Int :=
  match churn with
  | [] => 0
  | x :: xs => (xs.map (fun s => |s.deletions|)).foldl max |x.deletions|

/-! ### Helper lemmas -/

theorem le_foldl_max (l : List Int) (a : Int) : a ≤ l.foldl max a := by
  induction l generalizing a with
  | nil => exact le_refl a
  | cons x xs ih => exact le_trans (le_max_left a x) (ih (max a x))

theorem foldl_max_all_zero (l : List Int) (h : ∀ v ∈ l, v = 0) :
    l.foldl max 0 = 0 := by
  induction l with
  | nil => rfl
  | cons x xs ih =>
    have hx : x = 0 := h x (List.mem_cons_self x xs)
    have : max 0 x = 0 := by rw [hx]; exact max_self 0
    simp only [List.foldl_cons, this]
    exact ih fun v hv => h v (List.mem_cons_of_mem x hv)

theorem foldl_min_all_zero (l : List Int) (h : ∀ v ∈ l, v = 0) :
    l.foldl min 0 = 0 := by
  induction l with
  | nil => rfl
  | cons x xs ih =>
    have hx : x = 0 := h x (List.mem_cons_self x xs)
    have : min 0 x = 0 := by rw [hx]; exact min_self 0
    simp only [List.foldl_cons, this]
    exact ih fun v hv => h v (List.mem_cons_of_mem x hv)

theorem abs_foldl_min (l : List Int) (a : Int) (ha : a ≤ 0) (hl : ∀ x ∈ l, x ≤ 0) :
    |l.foldl min a| = (l.map (fun x => |x|)).foldl max |a| := by
  induction l generalizing a with
  | nil => rfl
  | cons x xs ih =>
    have hx : x ≤ 0 := hl x (List.mem_cons_self x xs)
    have hax : min a x ≤ 0 := le_trans (min_le_left a x) ha
    have habs : |min a x| = max |a| |x| := by
      rcases le_total a x with h | h
      · rw [min_eq_left h, abs_of_nonpos ha, abs_of_nonpos hx]
        exact (max_eq_left (neg_le_neg h)).symm
      · rw [min_eq_right h, abs_of_nonpos ha, abs_of_nonpos hx]
        exact (max_eq_right (neg_le_neg h)).symm
    simp only [List.foldl_cons, List.map_cons]
    rw [ih (min a x) hax (fun y hy => hl y (List.mem_cons_of_mem x hy)), habs]

theorem churnDenom_spec (x : ChurnSample) (xs : List ChurnSample)
    (hnorm : ∀ s ∈ x :: xs, s.deletions ≤ 0) :
    churnDenom (x :: xs)
      = .finite ((max (peakAdditions (x :: xs)) (peakDeletionMagnitude (x :: xs)) : Int) : ℚ) := by
  have hx : x.deletions ≤ 0 := hnorm x (List.mem_cons_self x xs)
  have hl : ∀ v ∈ xs.map (fun s => s.deletions), v ≤ 0 := by
    intro v hv
    obtain ⟨s, hs, rfl⟩ := List.mem_map.mp hv
    exact hnorm s (List.mem_cons_of_mem x hs)
  have habs := abs_foldl_min (xs.map (fun s => s.deletions)) x.deletions hx hl
  simp only [churnDenom, peakAdditions, peakDeletionMagnitude]
  rw [habs, List.map_map]
  rfl

theorem maxCommits_eq_maxCommitCount (commits : List CommitSample) (hm : commits ≠ []) :
    maxCommits commits = .finite (maxCommitCount commits) := by
  cases commits with
  | nil => exact absurd rfl hm
  | cons y ys =>
    simp only [maxCommits, maxCommitCount]
    by_cases h : (ys.map (fun s => s.c)).foldl max y.c = 0 <;> simp [h]

theorem maxCommitCount_pos (commits : List CommitSample)
    (hcc : ∀ s ∈ commits, 0 ≤ s.c) : 0 < maxCommitCount commits := by
  cases commits with
  | nil => norm_num [maxCommitCount]
  | cons y ys =>
    have hy : (0 : Int) ≤ y.c := hcc y (List.mem_cons_self y ys)
    have hm : (0 : Int) ≤ (ys.map (fun s => s.c)).foldl max y.c :=
      le_trans hy (le_foldl_max _ y.c)
    simp only [maxCommitCount]
    by_cases h : (ys.map (fun s => s.c)).foldl max y.c = 0
    · simp [h]
    · have : (0 : Int) < (ys.map (fun s => s.c)).foldl max y.c := lt_of_le_of_ne hm (Ne.symm h)
      simp only [h, if_false]
      exact_mod_cast this

theorem pyDiv_finite_pos_zero (q : ℚ) (hq : 0 < q) :
    pyDiv (.finite q) (.finite 0) = .inf := by
  simp [pyDiv, hq]

theorem pyDiv_finite_finite (a b : ℚ) (hb : b ≠ 0) :
    pyDiv (.finite a) (.finite b) = .finite (a / b) := by
  simp [pyDiv, hb]

theorem weekSamples_filter_self (a : String) (ws : List (Int × Int)) :
    (weekSamples a ws).filter (fun s => s.author == a) = weekSamples a ws := by
  induction ws with
  | nil => rfl
  | cons p ps ih => simp [weekSamples, List.filter] at ih ⊢; exact ih

theorem weekSamples_filter_other (a c : String) (h : ¬a = c) (ws : List (Int × Int)) :
    (weekSamples a ws).filter (fun s => s.author == c) = [] := by
  induction ws with
  | nil => rfl
  | cons p ps ih =>
    have hbeq : (a == c) = false := by simpa using h
    simp only [weekSamples, List.map_cons, List.filter_cons] at ih ⊢
    simpa [hbeq] using ih

/-! ### Claim theorems -/

/-- C2: for every well-formed churn payload (each record a triple of epoch
seconds and two non-negative counts), every sample of the normalized churn
output satisfies `deletions ≤ 0 ≤ additions`. -/
theorem churn_sign_invariant (code_freq : List (Int × Int × Int))
    (h : ∀ r ∈ code_freq, 0 ≤ r.2.1 ∧ 0 ≤ r.2.2) :
    ∀ s ∈ process_code_freq code_freq, s.deletions ≤ 0 ∧ 0 ≤ s.additions := by
  intro s hs
  simp only [process_code_freq, List.map_map, List.mem_map, Function.comp] at hs
  obtain ⟨r, hr, rfl⟩ := hs
  exact ⟨neg_nonpos.mpr (abs_nonneg _), (h r hr).1⟩

/-- Witness for C2 at the payload `[(0, 100, 40)]` and its single output
sample. -/
theorem churn_sign_invariant_witness :
    (ChurnSample.mk 0 100 (-40)).deletions ≤ 0 ∧ 0 ≤ (ChurnSample.mk 0 100 (-40)).additions :=
  churn_sign_invariant [((0 : Int), (100 : Int), (40 : Int))] (by decide)
    (ChurnSample.mk 0 100 (-40)) (by decide)

/-- C9: churn normalization is sign-robust on the deletions field: the
output table maps every raw record `(t, a, d)` — `d` of either sign — to
the sample `(t, a, -|d|)`, so every output deletions value is the negated
absolute value of the raw one and hence non-positive. -/
theorem deletions_sign_robust (code_freq : List (Int × Int × Int)) :
    process_code_freq code_freq
        = code_freq.map (fun r => ChurnSample.mk r.1 r.2.1 (-|r.2.2|))
      ∧ ∀ s ∈ process_code_freq code_freq, s.deletions ≤ 0 := by
  constructor
  · simp only [process_code_freq, List.map_map]
    rfl
  · intro s hs
    simp only [process_code_freq, List.map_map, List.mem_map, Function.comp] at hs
    obtain ⟨r, _, rfl⟩ := hs
    exact neg_nonpos.mpr (abs_nonneg _)

/-- Witness for C9 at a payload whose raw deletions value is already
negative: `(0, 5, -7)` normalizes to deletions `-7 = -|-7|`. -/
theorem deletions_sign_robust_witness :
    process_code_freq [((0 : Int), (5 : Int), (-7 : Int))]
        = [((0 : Int), (5 : Int), (-7 : Int))].map (fun r => ChurnSample.mk r.1 r.2.1 (-|r.2.2|))
      ∧ (ChurnSample.mk 0 5 (-7)).deletions ≤ 0 :=
  ⟨(deletions_sign_robust [((0 : Int), (5 : Int), (-7 : Int))]).1,
    (deletions_sign_robust [((0 : Int), (5 : Int), (-7 : Int))]).2
      (ChurnSample.mk 0 5 (-7)) (by decide)⟩

/-- C5 counterexample: an empty commit-activity payload does NOT yield an
empty commit output: the contributor loop hands `pd.concat` an empty list
of frames, which raises `ValueError` (line 111). -/
theorem empty_activity_not_ok :
    process_activity ([] : List RawContributor) ≠ .ok [] := by
  intro h
  exact Except.noConfusion h

/-- C5 amended: the churn normalization is total on an empty payload
(empty output, no error), but the commit-activity normalization fails on
an empty payload with the `pd.concat` `ValueError`. -/
theorem empty_payload_behaviour :
    process_code_freq ([] : List (Int × Int × Int)) = []
      ∧ process_activity ([] : List RawContributor) = .error ProcessError.emptyConcat :=
  ⟨rfl, rfl⟩

/-- C7: a commit-activity payload containing a contributor record that
lacks its author identifier or its weeks list makes the whole
normalization fail with the `KeyError` of lines 104-105; since the result
is an exception, no partial output is emitted for any contributor. -/
theorem malformed_contributor_fails (activity : List RawContributor)
    (r : RawContributor) (hr : r ∈ activity)
    (hbad : r.author = none ∨ r.weeks = none) :
    process_activity activity = .error ProcessError.keyError := by
  have herr : flattenContributor r = .error .keyError := by
    obtain ⟨oa, ow⟩ := r
    rcases hbad with h | h <;> simp only at h <;> subst h
    · cases ow <;> rfl
    · cases oa <;> rfl
  have honly : ∀ q : RawContributor, ∀ e, flattenContributor q = .error e →
      e = ProcessError.keyError := by
    intro q e hq
    obtain ⟨oa, ow⟩ := q
    cases oa <;> cases ow <;> simp only [flattenContributor] at hq
    all_goals first
      | (exact (Except.error.inj hq).symm)
      | (split at hq
         · exact (Except.error.inj hq).symm
         · exact absurd hq (by simp))
  have hloop : buildUp activity = .error .keyError := by
    induction activity with
    | nil => cases hr
    | cons x xs ih =>
      rcases List.mem_cons.mp hr with rfl | hr2
      · simp [buildUp, herr]
      · cases hfx : flattenContributor x with
        | error e =>
          have he := honly x e hfx
          subst he
          simp [buildUp, hfx]
        | ok l => simp [buildUp, hfx, ih hr2]
  simp [process_activity, hloop]

/-- Witness for C7: a record with the `author` key missing. -/
theorem malformed_contributor_fails_witness :
    process_activity [RawContributor.mk none (some [(0, 1)])]
      = .error ProcessError.keyError :=
  malformed_contributor_fails [RawContributor.mk none (some [(0, 1)])]
    (RawContributor.mk none (some [(0, 1)])) (by simp) (Or.inl rfl)

/-- C3: a commit-activity payload with two distinct contributors is
flattened into one sample per (contributor, week) pair: the output is the
concatenation of the two per-contributor groups, filtering by either
author recovers exactly that contributor's weeks in input order, and the
total count is the sum of the two week-list lengths. -/
theorem flatten_two_contributors (a b : String) (hab : a ≠ b)
    (ws vs : List (Int × Int)) (hws : ws ≠ []) (hvs : vs ≠ []) :
    process_activity [RawContributor.mk (some a) (some ws), RawContributor.mk (some b) (some vs)]
        = .ok (weekSamples a ws ++ weekSamples b vs)
      ∧ (weekSamples a ws ++ weekSamples b vs).filter (fun s => s.author == a)
          = weekSamples a ws
      ∧ (weekSamples a ws ++ weekSamples b vs).filter (fun s => s.author == b)
          = weekSamples b vs
      ∧ (weekSamples a ws ++ weekSamples b vs).length = ws.length + vs.length := by
  obtain ⟨w, ws, rfl⟩ : ∃ w tl, ws = w :: tl := by
    cases ws with
    | nil => exact absurd rfl hws
    | cons w tl => exact ⟨w, tl, rfl⟩
  obtain ⟨v, vs, rfl⟩ : ∃ v tl, vs = v :: tl := by
    cases vs with
    | nil => exact absurd rfl hvs
    | cons v tl => exact ⟨v, tl, rfl⟩
  refine ⟨?_, ?_, ?_, ?_⟩
  · simp [process_activity, buildUp, flattenContributor]
  · rw [List.filter_append, weekSamples_filter_self,
      weekSamples_filter_other b a (Ne.symm hab), List.append_nil]
  · rw [List.filter_append, weekSamples_filter_other a b hab,
      weekSamples_filter_self, List.nil_append]
  · simp [weekSamples]
    omega

/-- Witness for C3 at the spec's instance: contributor A with 3 weeks and
contributor B with 2 weeks yield exactly 5 samples, 3 tagged A and 2
tagged B, in input order within each group. -/
theorem flatten_two_contributors_witness :
    process_activity [RawContributor.mk (some "A") (some [(0, 1), (7, 2), (14, 3)]),
        RawContributor.mk (some "B") (some [(0, 4), (7, 5)])]
        = .ok (weekSamples "A" [(0, 1), (7, 2), (14, 3)] ++ weekSamples "B" [(0, 4), (7, 5)])
      ∧ (weekSamples "A" [(0, 1), (7, 2), (14, 3)] ++ weekSamples "B" [(0, 4), (7, 5)]).filter
          (fun s => s.author == "A") = weekSamples "A" [(0, 1), (7, 2), (14, 3)]
      ∧ (weekSamples "A" [(0, 1), (7, 2), (14, 3)] ++ weekSamples "B" [(0, 4), (7, 5)]).filter
          (fun s => s.author == "B") = weekSamples "B" [(0, 4), (7, 5)]
      ∧ (weekSamples "A" [(0, 1), (7, 2), (14, 3)] ++ weekSamples "B" [(0, 4), (7, 5)]).length
          = 5 := by
  have h := flatten_two_contributors "A" "B" (by decide) [(0, 1), (7, 2), (14, 3)]
    [(0, 4), (7, 5)] (by simp) (by simp)
  exact ⟨h.1, h.2.1, h.2.2.1, by simpa using h.2.2.2⟩

/-- C10: evaluation at the two decisive inputs.  A payload repeating the
author login `A` in two distinct records is flattened record by record and
concatenated (1 + 2 = 3 samples, no deduplication).  A payload with a
contributor whose week list is empty, however, raises `KeyError` instead
of contributing zero samples, because `pd.DataFrame([])` has no `"w"`
column (line 108) — contradicting the claim's count for that input. -/
theorem duplicate_author_concat_eval :
    process_activity [RawContributor.mk (some "A") (some [(0, 1)]),
        RawContributor.mk (some "A") (some [(7, 2), (14, 3)])]
        = .ok [CommitSample.mk 0 1 "A", CommitSample.mk 7 2 "A", CommitSample.mk 14 3 "A"]
      ∧ process_activity [RawContributor.mk (some "A") (some [])]
          = .error ProcessError.keyError :=
  ⟨rfl, rfl⟩

/-- C1: for a nonempty normalized churn table (deletions non-positive)
with positive denominator and a nonempty commit table, the scaling factor
of lines 125-126 equals the spec's
`max_commit_count / max(max_additions, abs(min_deletions))`, with
`max_commit_count` treated as 1 when all commit counts are zero. -/
theorem scale_formula (churn : List ChurnSample) (commits : List CommitSample)
    (hc : churn ≠ []) (hm : commits ≠ [])
    (hnorm : ∀ s ∈ churn, s.deletions ≤ 0)
    (hd : 0 < max (peakAdditions churn) (peakDeletionMagnitude churn)) :
    scalingFactor churn commits
      = .finite (maxCommitCount commits
          / ((max (peakAdditions churn) (peakDeletionMagnitude churn) : Int) : ℚ)) := by
  obtain ⟨x, xs, rfl⟩ : ∃ x tl, churn = x :: tl := by
    cases churn with
    | nil => exact absurd rfl hc
    | cons x tl => exact ⟨x, tl, rfl⟩
  have hDpos : (0 : ℚ)
      < ((max (peakAdditions (x :: xs)) (peakDeletionMagnitude (x :: xs)) : Int) : ℚ) := by
    exact_mod_cast hd
  rw [scalingFactor, maxCommits_eq_maxCommitCount commits hm, churnDenom_spec x xs hnorm,
    pyDiv_finite_finite _ _ (ne_of_gt hDpos)]

/-- Witness for C1 at the spec's example: peak additions 100, peak
deletion magnitude 40, max commit count 5 give scale `5 / 100 = 0.05`. -/
theorem scale_formula_witness :
    0 < max (peakAdditions [ChurnSample.mk 0 100 (-40)])
        (peakDeletionMagnitude [ChurnSample.mk 0 100 (-40)])
      ∧ scalingFactor [ChurnSample.mk 0 100 (-40)] [CommitSample.mk 0 5 "A"]
          = .finite (5 / 100) := by
  refine ⟨by decide, ?_⟩
  rw [scale_formula [ChurnSample.mk 0 100 (-40)] [CommitSample.mk 0 5 "A"]
    (by simp) (by simp) (by decide) (by decide)]
  norm_num [maxCommitCount, peakAdditions, peakDeletionMagnitude]

/-- C6: when every commit count is zero but the churn denominator is
positive, the `or 1` of line 125 replaces the zero maximum by one, so the
scale is `1 / max(max_additions, abs(min_deletions))`. -/
theorem all_zero_commits_scale (churn : List ChurnSample) (commits : List CommitSample)
    (hc : churn ≠ []) (hm : commits ≠ [])
    (hz : ∀ s ∈ commits, s.c = 0)
    (hnorm : ∀ s ∈ churn, s.deletions ≤ 0)
    (hd : 0 < max (peakAdditions churn) (peakDeletionMagnitude churn)) :
    scalingFactor churn commits
      = .finite (1 / ((max (peakAdditions churn) (peakDeletionMagnitude churn) : Int) : ℚ)) := by
  obtain ⟨y, ys, rfl⟩ : ∃ y tl, commits = y :: tl := by
    cases commits with
    | nil => exact absurd rfl hm
    | cons y tl => exact ⟨y, tl, rfl⟩
  obtain ⟨x, xs, rfl⟩ : ∃ x tl, churn = x :: tl := by
    cases churn with
    | nil => exact absurd rfl hc
    | cons x tl => exact ⟨x, tl, rfl⟩
  have hone : maxCommits (y :: ys) = .finite 1 := by
    have hy : y.c = 0 := hz y (List.mem_cons_self y ys)
    have hall : ∀ v ∈ ys.map (fun s => s.c), v = 0 := by
      intro v hv
      obtain ⟨s, hs, rfl⟩ := List.mem_map.mp hv
      exact hz s (List.mem_cons_of_mem y hs)
    have hm0 : (ys.map (fun s => s.c)).foldl max y.c = 0 := by
      rw [hy]; exact foldl_max_all_zero _ hall
    simp [maxCommits, hm0]
  have hDpos : (0 : ℚ)
      < ((max (peakAdditions (x :: xs)) (peakDeletionMagnitude (x :: xs)) : Int) : ℚ) := by
    exact_mod_cast hd
  rw [scalingFactor, hone, churnDenom_spec x xs hnorm,
    pyDiv_finite_finite _ _ (ne_of_gt hDpos)]

/-- Witness for C6: all-zero commit counts over churn peaking at 100 give
scale `1 / 100`. -/
theorem all_zero_commits_scale_witness :
    0 < max (peakAdditions [ChurnSample.mk 0 100 (-40)])
        (peakDeletionMagnitude [ChurnSample.mk 0 100 (-40)])
      ∧ scalingFactor [ChurnSample.mk 0 100 (-40)]
          [CommitSample.mk 0 0 "A", CommitSample.mk 7 0 "B"]
          = .finite (1 / 100) := by
  refine ⟨by decide, ?_⟩
  rw [all_zero_commits_scale [ChurnSample.mk 0 100 (-40)]
    [CommitSample.mk 0 0 "A", CommitSample.mk 7 0 "B"]
    (by simp) (by simp) (by decide) (by decide) (by decide)]
  norm_num [peakAdditions, peakDeletionMagnitude]

/-- C4 counterexample: on an all-zero churn table, the scale computation
does not fail — numpy division by zero yields `inf` — and the combined
overlay is not skipped: all three figures are produced, the overlay first,
its churn traces rendered with NaN values. -/
theorem degenerate_churn_counterexample :
    scalingFactor [ChurnSample.mk 0 0 0] [CommitSample.mk 0 5 "A"] = PyVal.inf
      ∧ plot_data [ChurnSample.mk 0 0 0] [CommitSample.mk 0 5 "A"]
          = [overlayFigure [ChurnSample.mk 0 0 0] [CommitSample.mk 0 5 "A"],
             rawChurnFigure [ChurnSample.mk 0 0 0] [CommitSample.mk 0 5 "A"],
             rawCommitFigure [CommitSample.mk 0 5 "A"]]
      ∧ (overlayFigure [ChurnSample.mk 0 0 0] [CommitSample.mk 0 5 "A"]).traces
          = [Trace.mk "Additions (scaled)" [0] [PyVal.nan],
             Trace.mk "Deletions (scaled)" [0] [PyVal.nan],
             Trace.mk "Commits by: A" [0] [PyVal.finite 5]] := by
  refine ⟨?_, rfl, ?_⟩
  · norm_num [scalingFactor, maxCommits, churnDenom, pyDiv]
  · norm_num [overlayFigure, scalingFactor, maxCommits, churnDenom, pyDiv, pyMul,
      commitTraces, uniqueAuthors]
    rfl

/-- C4 amended: on any nonempty all-zero churn table with a nonempty
commit table of non-negative counts, no exception is raised: the scaling
factor is `inf`, all three figures — the combined overlay included — are
still produced, and the overlay's additions trace holds NaN values. -/
theorem degenerate_churn_behaviour (churn : List ChurnSample) (commits : List CommitSample)
    (hc : churn ≠ []) (hm : commits ≠ [])
    (hz : ∀ s ∈ churn, s.additions = 0 ∧ s.deletions = 0)
    (hcc : ∀ s ∈ commits, 0 ≤ s.c) :
    scalingFactor churn commits = PyVal.inf
      ∧ plot_data churn commits
          = [overlayFigure churn commits, rawChurnFigure churn commits, rawCommitFigure commits]
      ∧ (overlayFigure churn commits).traces.head?
          = some (Trace.mk "Additions (scaled)" (churn.map (fun r => r.timestamp))
              (churn.map (fun _ => PyVal.nan))) := by
  obtain ⟨x, xs, rfl⟩ : ∃ x tl, churn = x :: tl := by
    cases churn with
    | nil => exact absurd rfl hc
    | cons x tl => exact ⟨x, tl, rfl⟩
  have hzero : churnDenom (x :: xs) = .finite 0 := by
    have hxa : x.additions = 0 := (hz x (List.mem_cons_self x xs)).1
    have hxd : x.deletions = 0 := (hz x (List.mem_cons_self x xs)).2
    have ha : ∀ v ∈ xs.map (fun s => s.additions), v = 0 := by
      intro v hv
      obtain ⟨s, hs, rfl⟩ := List.mem_map.mp hv
      exact (hz s (List.mem_cons_of_mem x hs)).1
    have hdl : ∀ v ∈ xs.map (fun s => s.deletions), v = 0 := by
      intro v hv
      obtain ⟨s, hs, rfl⟩ := List.mem_map.mp hv
      exact (hz s (List.mem_cons_of_mem x hs)).2
    have h1 : (xs.map (fun s => s.additions)).foldl max x.additions = 0 := by
      rw [hxa]; exact foldl_max_all_zero _ ha
    have h2 : (xs.map (fun s => s.deletions)).foldl min x.deletions = 0 := by
      rw [hxd]; exact foldl_min_all_zero _ hdl
    simp [churnDenom, h1, h2]
  have hinf : scalingFactor (x :: xs) commits = PyVal.inf := by
    rw [scalingFactor, maxCommits_eq_maxCommitCount commits hm, hzero]
    exact pyDiv_finite_pos_zero _ (maxCommitCount_pos commits hcc)
  have hys : (x :: xs).map
        (fun r => pyMul (.finite (r.additions : ℚ)) (scalingFactor (x :: xs) commits))
      = (x :: xs).map (fun _ => PyVal.nan) := by
    apply List.map_congr_left
    intro r hr
    rw [hinf, (hz r hr).1]
    norm_num [pyMul]
  refine ⟨hinf, rfl, ?_⟩
  simp only [overlayFigure, List.cons_append, List.head?_cons, Option.some.injEq]
  rw [Trace.mk.injEq]
  exact ⟨rfl, rfl, hys⟩

/-- Witness for the amended C4 at a two-week all-zero churn table. -/
theorem degenerate_churn_behaviour_witness :
    scalingFactor [ChurnSample.mk 0 0 0, ChurnSample.mk 7 0 0] [CommitSample.mk 0 3 "B"]
        = PyVal.inf
      ∧ plot_data [ChurnSample.mk 0 0 0, ChurnSample.mk 7 0 0] [CommitSample.mk 0 3 "B"]
          = [overlayFigure [ChurnSample.mk 0 0 0, ChurnSample.mk 7 0 0] [CommitSample.mk 0 3 "B"],
             rawChurnFigure [ChurnSample.mk 0 0 0, ChurnSample.mk 7 0 0] [CommitSample.mk 0 3 "B"],
             rawCommitFigure [CommitSample.mk 0 3 "B"]]
      ∧ (overlayFigure [ChurnSample.mk 0 0 0, ChurnSample.mk 7 0 0]
            [CommitSample.mk 0 3 "B"]).traces.head?
          = some (Trace.mk "Additions (scaled)"
              ([ChurnSample.mk 0 0 0, ChurnSample.mk 7 0 0].map (fun r => r.timestamp))
              ([ChurnSample.mk 0 0 0, ChurnSample.mk 7 0 0].map (fun _ => PyVal.nan))) :=
  degenerate_churn_behaviour [ChurnSample.mk 0 0 0, ChurnSample.mk 7 0 0]
    [CommitSample.mk 0 3 "B"] (by simp) (by simp) (by decide) (by decide)

/-- C8: the "Raw code frequency" figure is not unscaled: at churn
`(0, 100, -40)` and maximum commit count 5 the scaling factor is
`5 / 100`, and the figure's deletions trace holds `-2 = -40 * 0.05`
(line 204 multiplies by the scaling factor) instead of the raw `-40`. -/
theorem raw_churn_view_scales_deletions :
    (rawChurnFigure [ChurnSample.mk 0 100 (-40)] [CommitSample.mk 0 5 "A"]).traces.map Trace.ys
        = [[PyVal.finite 100], [PyVal.finite 100], [PyVal.finite (-2)]]
      ∧ scalingFactor [ChurnSample.mk 0 100 (-40)] [CommitSample.mk 0 5 "A"]
          = PyVal.finite (5 / 100) := by
  constructor
  · norm_num [rawChurnFigure, scalingFactor, maxCommits, churnDenom, pyDiv, pyMul]
  · norm_num [scalingFactor, maxCommits, churnDenom, pyDiv]
